import Mathlib

/-!
Verification of the scoped-store subsystem of `jotai-x`.

The development shallowly embeds the code of
`packages/jotai-x/src/atomWithFn.ts`, `createAtomProvider.tsx`,
`createAtomStore.ts` and `useHydrateStore.ts`:

* JavaScript runtime values are modelled by `JSValue` (functions are
  identified by an id, objects by their own-property association list).
* The store-registry `Map` threaded through React context is modelled by an
  association list where `alistSet` prepends and `alistGet` returns the most
  recent entry, matching the observable get/set behaviour of `Map`.
* Jotai store instances are identified by natural numbers; the mutable cell
  contents of one store instance are modelled as a function from field key to
  `JSValue`.
* React hooks are modelled per commit: a `useEffect` with dependency array
  `[x]` re-runs when the previously rendered dependency (an `Option`, `none`
  on mount) differs from the current one.
-/

set_option autoImplicit false

/-! ## JavaScript value model -/

mutual
/-- Model of the JavaScript runtime values that flow through the package:
`undefined`, `null`, booleans, numbers, strings, functions (identified by an
id standing for reference identity) and plain objects (own enumerable
properties as an association list, `JSFields`). -/
inductive JSValue where
  | vUndefined : JSValue
  | vNull : JSValue
  | vBool (b : Bool) : JSValue
  | vNum (n : Int) : JSValue
  | vStr (s : String) : JSValue
  | vFun (id : Nat) : JSValue
  | vObj (fields : JSFields) : JSValue
deriving DecidableEq
/-- The own enumerable properties of a modelled JavaScript object. -/
inductive JSFields where
  | fnil : JSFields
  | fcons (k : String) (v : JSValue) (rest : JSFields) : JSFields
deriving DecidableEq
end

/-- Property lookup on a modelled object's fields (first match wins, as keys
of a JavaScript object are unique). -/
def fieldsGet : JSFields → String → Option JSValue
  | .fnil, _ => none
  | .fcons k1 v rest, k => if k1 = k then some v else fieldsGet rest k

/-- JavaScript truthiness of a modelled value: `undefined`, `null`, `false`,
`0` and `""` are falsy; every object and function is truthy. -/
def truthy : JSValue → Bool
  | .vUndefined => false
  | .vNull => false
  | .vBool b => b
  | .vNum n => n != 0
  | .vStr s => s != ""
  | .vFun _ => true
  | .vObj _ => true

/-! ## Association lists (JS `Map` / object observable behaviour) -/

/-- Lookup in an association list, first match wins (together with
`alistSet` prepending, this gives the observable get-after-set behaviour of a
JavaScript `Map` or object: the most recent assignment is returned). -/
def alistGet {α : Type} : List (String × α) → String → Option α
  | [], _ => none
  | (k1, v) :: rest, k => if k1 = k then some v else alistGet rest k

/-- Model of `Map.prototype.set` / object property assignment: the new entry
shadows any older entry with the same key. -/
def alistSet {α : Type} (m : List (String × α)) (k : String) (v : α) :
    List (String × α) :=
  (k, v) :: m

theorem alistGet_set_self {α : Type} (m : List (String × α)) (k : String)
    (v : α) : alistGet (alistSet m k v) k = some v := by
  simp [alistGet, alistSet]

theorem alistGet_set_ne {α : Type} (m : List (String × α)) (k k1 : String)
    (v : α) (h : k1 ≠ k) : alistGet (alistSet m k v) k1 = alistGet m k1 := by
  simp [alistGet, alistSet, Ne.symm h]

/-! ## Function-value codec (`atomWithFn.ts`) -/

/-- Embedding of `wrapFn`: a function is wrapped in an object under the
private `__fn` marker key, everything else passes through unchanged. -/
def wrapFn : JSValue → JSValue
  | .vFun id => .vObj (.fcons "__fn" (.vFun id) .fnil)
  | v => v

/-- Embedding of `unwrapFn`: a truthy value of type `object` bearing an
`__fn` property has that property extracted, everything else passes through
unchanged (of the modelled values, only object literals are both truthy and
of `typeof` `object`; in particular `null` passes through). -/
def unwrapFn (w : JSValue) : JSValue :=
  match w with
  | .vObj fields =>
    match fieldsGet fields "__fn" with
    | some u => u
    | none => w
  | _ => w

/-- A non-function value that is an object carrying the codec's private
`__fn` marker key; such values collide with the codec's duck-typed unwrap
probe. -/
def hasFnMarker : JSValue → Bool
  | .vObj fields => (fieldsGet fields "__fn").isSome
  | _ => false

/-! ## Store registry (`createAtomProvider.tsx`) -/

/-- A registry snapshot: the `Map` held in `AtomStoreContext`, mapping a
fully qualified scope string to a store instance (store instances are
identified by a natural number standing for object identity). -/
abbrev Registry := List (String × Nat)

/-- Embedding of `getFullyQualifiedScope`. -/
def getFullyQualifiedScope (storeName scope : String) : String :=
  storeName ++ ":" ++ scope

/-- The reserved wildcard scope `PROVIDER_SCOPE`. -/
def PROVIDER_SCOPE : String := "provider"

/-- The `console.warn` diagnostic text emitted by `useAtomStore`, naming the
unresolved store. -/
def warnMessage (storeName : String) : String :=
  "Tried to access jotai store \x27" ++ storeName ++
    "\x27 outside of a matching provider."

/-- Embedding of `useAtomStore`: look up `(storeName, scope)` in the context
map, fall back to `(storeName, PROVIDER_SCOPE)`, otherwise `none`; the second
component is the emitted console diagnostic (`none` when nothing is logged).
The function is total: resolution failure yields `none`, never an exception. -/
def useAtomStore (ctx : Registry) (storeName scope : String)
    (warnIfUndefined : Bool) : Option Nat × Option String :=
  let store :=
    match alistGet ctx (getFullyQualifiedScope storeName scope) with
    | some s => some s
    | none => alistGet ctx (getFullyQualifiedScope storeName PROVIDER_SCOPE)
  (store,
    if store.isNone && warnIfUndefined then some (warnMessage storeName)
    else none)

/-- Embedding of the `storeContext` memo in `createAtomProvider`: copy the
inherited map, then — only when the `scope` prop is truthy (`if (scope)`),
i.e. present and non-empty — register under the fully qualified scope, and in
every case register under the wildcard `PROVIDER_SCOPE` key. -/
def providerStoreContext (prev : Registry) (storeScope : String)
    (scope : Option String) (storeState : Nat) : Registry :=
  let m1 :=
    match scope with
    | some sc =>
      if sc ≠ "" then
        alistSet prev (getFullyQualifiedScope storeScope sc) storeState
      else prev
    | none => prev
  alistSet m1 (getFullyQualifiedScope storeScope PROVIDER_SCOPE) storeState

/-- Embedding of the reset effect in `createAtomProvider`:
`useEffect(() => { if (resetKey) setStoreState(createStore()) }, [resetKey])`.
`prevKey` is the dependency value of the previous commit (`none` on mount),
`storeId` the current store instance and `freshId` the instance a
`createStore()` call would produce. The effect re-runs only when the
dependency changed, and replaces the store only when the new `resetKey` is
truthy. -/
def resetStep (prevKey : Option JSValue) (curKey : JSValue)
    (storeId freshId : Nat) : Nat :=
  if prevKey = some curKey then storeId
  else if truthy curKey then freshId else storeId

/-! ## Hydration and sync (`useHydrateStore.ts`) -/

/-- Embedding of the `values` array built by `useHydrateStore`: for each key
of the atom record (in order), the pair `(key, initialValues[key])` is pushed
exactly when `initialValues[key] !== undefined`. -/
def hydrateValues (atomKeys : List String) (initialValues : String → JSValue) :
    List (String × JSValue) :=
  atomKeys.filterMap fun k =>
    if initialValues k = JSValue.vUndefined then none
    else some (k, initialValues k)

/-- Write one value into the cell map of a store instance. -/
def updateCell (cells : String → JSValue) (k : String) (v : JSValue) :
    String → JSValue :=
  fun k1 => if k1 = k then v else cells k1

/-- Seed a batch of `(key, value)` pairs into a store instance's cells, in
order (models `useHydrateAtoms` applied to the `values` array). -/
def applyValues (cells : String → JSValue) (vs : List (String × JSValue)) :
    String → JSValue :=
  vs.foldl (fun acc p => updateCell acc p.1 p.2) cells

/-- Embedding of the per-field effect of `useSyncStore`:
`useEffect(() => { if (value !== undefined && value !== null) set(value) },
[set, value])`. `prevDep` is the previously committed dependency value
(`none` on mount); within one store instance the setter is referentially
stable, so the dependency array changes exactly when the value does. Returns
the new cell contents together with whether `set` was invoked. -/
def syncCell (prevDep : Option JSValue) (value : JSValue) (cell : JSValue) :
    JSValue × Bool :=
  if prevDep = some value then (cell, false)
  else if value ≠ JSValue.vUndefined ∧ value ≠ JSValue.vNull then (value, true)
  else (cell, false)

/-- Embedding of one committed update of `useSyncStore` over the whole atom
record: only keys of the atom record have a sync effect; every other cell is
untouched. -/
def syncStore (atomKeys : List String) (prevDeps : String → Option JSValue)
    (values : String → JSValue) (cells : String → JSValue) (k : String) :
    JSValue :=
  if k ∈ atomKeys then (syncCell (prevDeps k) (values k) (cells k)).1
  else cells k

/-! ## Store construction (`createAtomStore.ts`) -/

/-- One entry of the `initialState` record handed to `createAtomStore`:
either a plain value (which the construction loop passes to `atomWithFn`) or
a caller-supplied atom, i.e. a value passing the `isAtom` probe (`read`
function present), with its writability (`write` present). -/
inductive FieldInit where
  | plain (v : JSValue) : FieldInit
  | cell (id : Nat) (writable : Bool) : FieldInit
deriving DecidableEq

/-- An atom configuration held in the store's atom record: either the atom
`atomWithFn(value)` built from a plain initial value, or a caller-supplied
external atom. -/
inductive AtomDesc where
  | fromValue (v : JSValue) : AtomDesc
  | external (id : Nat) (writable : Bool) : AtomDesc
deriving DecidableEq

/-- Embedding of the per-entry branch of the construction loop: `isAtom`
values are used as-is, plain values are wrapped by `atomWithFn`. -/
def toAtomConfig : FieldInit → AtomDesc
  | .plain v => .fromValue v
  | .cell id w => .external id w

/-- Embedding of the `'write' in atomConfig` writability probe: `atomWithFn`
always returns a writable atom; an external atom keeps its own writability. -/
def writableOf : AtomDesc → Bool
  | .fromValue _ => true
  | .external _ w => w

/-- Embedding of the `atomsWithoutExtend` record built by the first loop of
`createAtomStore` (keys of `initialState`, in order). -/
def atomsWithoutExtend (init : List (String × FieldInit)) :
    List (String × AtomDesc) :=
  init.map fun p => (p.1, toAtomConfig p.2)

/-- Embedding of `writableAtomsWithoutExtend`: the writable subset of the
base atoms; this is the record the Provider is constructed with. -/
def writableAtomsWithoutExtend (init : List (String × FieldInit)) :
    List (String × AtomDesc) :=
  (atomsWithoutExtend init).filter fun p => writableOf p.2

/-- The field keys the Provider's hydration and sync hooks iterate over:
`Object.keys` of `writableAtomsWithoutExtend`. -/
def providerAtomKeys (init : List (String × FieldInit)) : List String :=
  (writableAtomsWithoutExtend init).map Prod.fst

/-- Embedding of the base `atomIsWritable` table filled by the first loop. -/
def atomIsWritableBase (init : List (String × FieldInit)) :
    List (String × Bool) :=
  (atomsWithoutExtend init).map fun p => (p.1, writableOf p.2)

/-- Embedding of the extension merge loop: starting from
`{...atomsWithoutExtend}`, each entry of the record returned by `extend` is
assigned into the atom record (later assignments shadow earlier entries and
the base). -/
def atomsAfterExtend (init : List (String × FieldInit))
    (ext : List (String × AtomDesc)) : List (String × AtomDesc) :=
  ext.foldl (fun m p => alistSet m p.1 p.2) (atomsWithoutExtend init)

/-- Embedding of the writability re-derivation in the extension merge loop:
`atomIsWritable[key] = 'write' in atomConfig` for every extension entry. -/
def writableAfterExtend (init : List (String × FieldInit))
    (ext : List (String × AtomDesc)) : List (String × Bool) :=
  ext.foldl (fun m p => alistSet m p.1 (writableOf p.2)) (atomIsWritableBase init)

/-! ## Typed accessor surface (`createAtomStore.ts`, hooks) -/

/-- Embedding of the `UseAtomOptions` object: each property is `none` when
absent or `undefined`. -/
structure UseAtomOptions where
  scope : Option String := none
  store : Option Nat := none
  delay : Option Int := none
  warnIfNoStore : Option Bool := none
deriving DecidableEq

/-- Embedding of `UseAtomOptionsOrScope`: either a bare scope string or an
options object. -/
inductive OptionsOrScope where
  | str (s : String) : OptionsOrScope
  | opts (o : UseAtomOptions) : OptionsOrScope
deriving DecidableEq

/-- Embedding of `convertScopeShorthand`: a string becomes `{ scope }`, an
object passes through. -/
def convertScopeShorthand : OptionsOrScope → UseAtomOptions
  | .str s => { scope := some s }
  | .opts o => o

/-- Object spread `{...a, ...b}` of two options objects: a property of `b`
overrides the same property of `a` when present. -/
def mergeOptions (a b : UseAtomOptions) : UseAtomOptions :=
  { scope := b.scope.orElse fun _ => a.scope
    store := b.store.orElse fun _ => a.store
    delay := b.delay.orElse fun _ => a.delay
    warnIfNoStore := b.warnIfNoStore.orElse fun _ => a.warnIfNoStore }

/-- Object spread `{...base, ...options}` as performed by the wrapper built
in `withDefaultOptions`, whose parameter is typed as an options object. When
the caller nevertheless passes a bare string, spreading the string copies
only its numeric index properties, so none of the four option properties is
contributed and the defaults survive unchanged. -/
def spreadIntoOptions (base : UseAtomOptions) : OptionsOrScope → UseAtomOptions
  | .str _ => base
  | .opts o => mergeOptions base o

/-- Embedding of the `useStore` hook of `createAtomStore`: convert the
shorthand, read `scope`/`store`/`warnIfNoStore` (default `true`), resolve the
context store via `useAtomStore` (warning suppressed when an explicit store
is supplied), and prefer the explicitly supplied store. Returns the resolved
store and the emitted diagnostic. -/
def useStore (ctx : Registry) (name : String) (oos : OptionsOrScope) :
    Option Nat × Option String :=
  let o := convertScopeShorthand oos
  let warn := o.store.isNone && o.warnIfNoStore.getD true
  let r := useAtomStore ctx name (o.scope.getD PROVIDER_SCOPE) warn
  (o.store.orElse fun _ => r.1, r.2)

/-- Store resolution performed by `useAtomValueWithStore` (the read path):
`useStore({ warnIfNoStore: false, ...options })` after shorthand
conversion. -/
def resolveReadStore (ctx : Registry) (name : String) (oos : OptionsOrScope) :
    Option Nat :=
  (useStore ctx name
    (.opts (mergeOptions { warnIfNoStore := some false }
      (convertScopeShorthand oos)))).1

/-- Store resolution performed by `useSetAtomWithStore` and
`useAtomWithStore`: `useStore(optionsOrScope)` directly. -/
def resolveWriteStore (ctx : Registry) (name : String) (oos : OptionsOrScope) :
    Option Nat :=
  (useStore ctx name oos).1

/-- The public per-field read accessor `get.<field>` returned by the
use-store hook: `withDefaultOptions` spreads the caller's argument over the
bound defaults (`{...defaultOptions, ...options}`) and hands the result to
the raw accessor, which applies `convertScopeShorthand` (a no-op on an
object) and resolves via the read path. The modelled observable is the store
instance the read is performed against. -/
def publicGetField (ctx : Registry) (name : String) (d oos : OptionsOrScope) :
    Option Nat :=
  resolveReadStore ctx name
    (.opts (spreadIntoOptions (convertScopeShorthand d) oos))

/-- The public per-field write accessor `set.<field>` returned by the
use-store hook (same wrapper as `publicGetField`, resolving via the write
path). -/
def publicSetField (ctx : Registry) (name : String) (d oos : OptionsOrScope) :
    Option Nat :=
  resolveWriteStore ctx name
    (.opts (spreadIntoOptions (convertScopeShorthand d) oos))

/-- The public per-field read-write accessor `use.<field>` returned by the
use-store hook (same wrapper, resolving via `useAtomWithStore`). -/
def publicUseField (ctx : Registry) (name : String) (d oos : OptionsOrScope) :
    Option Nat :=
  resolveWriteStore ctx name
    (.opts (spreadIntoOptions (convertScopeShorthand d) oos))

/-- The public `get.atom` accessor: both the bound defaults and the caller's
argument go through `convertScopeShorthand` before being spread. -/
def publicGetAtom (ctx : Registry) (name : String) (d oos : OptionsOrScope) :
    Option Nat :=
  resolveReadStore ctx name
    (.opts (mergeOptions (convertScopeShorthand d) (convertScopeShorthand oos)))

/-- The public `set.atom` accessor. -/
def publicSetAtom (ctx : Registry) (name : String) (d oos : OptionsOrScope) :
    Option Nat :=
  resolveWriteStore ctx name
    (.opts (mergeOptions (convertScopeShorthand d) (convertScopeShorthand oos)))

/-- The public `use.atom` accessor. -/
def publicUseAtom (ctx : Registry) (name : String) (d oos : OptionsOrScope) :
    Option Nat :=
  resolveWriteStore ctx name
    (.opts (mergeOptions (convertScopeShorthand d) (convertScopeShorthand oos)))

/-- The public `store` accessor of the use-store hook:
`useStore({...convertScopeShorthand(defaultOptions),
...convertScopeShorthand(options)})`. -/
def publicStoreFn (ctx : Registry) (name : String) (d oos : OptionsOrScope) :
    Option Nat × Option String :=
  useStore ctx name
    (.opts (mergeOptions (convertScopeShorthand d) (convertScopeShorthand oos)))

/-- A concrete registry used to separate the behaviours of the accessor
surface: the scope `x` of store `a` is bound to instance `1`, the wildcard
to instance `0`. -/
def ctxTwoScopes : Registry :=
  [(getFullyQualifiedScope "a" "x", 1),
   (getFullyQualifiedScope "a" PROVIDER_SCOPE, 0)]

/-! ## Helper lemmas -/

theorem hydrateValues_mem (atomKeys : List String)
    (initialValues : String → JSValue) (k : String) (v : JSValue) :
    (k, v) ∈ hydrateValues atomKeys initialValues ↔
      k ∈ atomKeys ∧ initialValues k ≠ JSValue.vUndefined ∧
        v = initialValues k := by
  induction atomKeys with
  | nil => simp [hydrateValues]
  | cons a rest ih =>
    simp only [hydrateValues, List.filterMap_cons] at ih ⊢
    by_cases ha : initialValues a = JSValue.vUndefined
    · rw [if_pos ha]
      constructor
      · intro hm
        rcases (ih.mp hm) with ⟨h1, h2, h3⟩
        exact ⟨List.mem_cons_of_mem a h1, h2, h3⟩
      · rintro ⟨h1, h2, h3⟩
        rcases List.mem_cons.mp h1 with h4 | h4
        · exact absurd (h4 ▸ ha) h2
        · exact ih.mpr ⟨h4, h2, h3⟩
    · rw [if_neg ha]
      constructor
      · intro hm
        rcases List.mem_cons.mp hm with h4 | h4
        · rcases Prod.mk.injEq .. ▸ h4 with ⟨h5, h6⟩
          exact ⟨h5 ▸ List.mem_cons_self a rest, h5 ▸ ha, h5 ▸ h6⟩
        · rcases ih.mp h4 with ⟨h1, h2, h3⟩
          exact ⟨List.mem_cons_of_mem a h1, h2, h3⟩
      · rintro ⟨h1, h2, h3⟩
        rcases List.mem_cons.mp h1 with h4 | h4
        · subst h4
          rw [h3]
          exact List.mem_cons_self _ _
        · exact List.mem_cons_of_mem _ (ih.mpr ⟨h4, h2, h3⟩)

theorem applyValues_nil (cells : String → JSValue) :
    applyValues cells [] = cells := rfl

theorem applyValues_cons (cells : String → JSValue) (p : String × JSValue)
    (vs : List (String × JSValue)) :
    applyValues cells (p :: vs) = applyValues (updateCell cells p.1 p.2) vs :=
  rfl

theorem applyValues_not_mem (cells : String → JSValue)
    (vs : List (String × JSValue)) (k : String)
    (h : ∀ p ∈ vs, p.1 ≠ k) : applyValues cells vs k = cells k := by
  induction vs generalizing cells with
  | nil => rfl
  | cons p rest ih =>
    rw [applyValues_cons]
    rw [ih _ fun q hq => h q (List.mem_cons_of_mem p hq)]
    simp [updateCell, Ne.symm (h p (List.mem_cons_self p rest))]

theorem applyValues_all_eq (cells : String → JSValue)
    (vs : List (String × JSValue)) (k : String) (v : JSValue)
    (hex : ∃ p ∈ vs, p.1 = k) (hall : ∀ p ∈ vs, p.1 = k → p.2 = v) :
    applyValues cells vs k = v := by
  induction vs generalizing cells with
  | nil => simp at hex
  | cons p rest ih =>
    rw [applyValues_cons]
    by_cases hr : ∃ q ∈ rest, q.1 = k
    · exact ih _ hr fun q hq => hall q (List.mem_cons_of_mem p hq)
    · push_neg at hr
      rcases hex with ⟨q, hq, hqk⟩
      rcases List.mem_cons.mp hq with h4 | h4
      · subst h4
        rw [applyValues_not_mem _ _ _ hr]
        simp [updateCell, hqk, hall q (List.mem_cons_self q rest) hqk]
      · exact absurd hqk (hr q h4)

theorem applyValues_hydrate_defined (cells : String → JSValue)
    (atomKeys : List String) (initialValues : String → JSValue) (k : String)
    (hk : k ∈ atomKeys) (hd : initialValues k ≠ JSValue.vUndefined) :
    applyValues cells (hydrateValues atomKeys initialValues) k =
      initialValues k := by
  apply applyValues_all_eq
  · exact ⟨(k, initialValues k),
      (hydrateValues_mem atomKeys initialValues k _).mpr ⟨hk, hd, rfl⟩, rfl⟩
  · intro p hp hpk
    rcases (hydrateValues_mem atomKeys initialValues p.1 p.2).mp hp
      with ⟨_, _, h3⟩
    rw [h3, hpk]

theorem applyValues_hydrate_skip (cells : String → JSValue)
    (atomKeys : List String) (initialValues : String → JSValue) (k : String)
    (h : k ∉ atomKeys ∨ initialValues k = JSValue.vUndefined) :
    applyValues cells (hydrateValues atomKeys initialValues) k = cells k := by
  apply applyValues_not_mem
  intro p hp hpk
  rcases (hydrateValues_mem atomKeys initialValues p.1 p.2).mp hp
    with ⟨h1, h2, _⟩
  rcases h with h3 | h3
  · exact h3 (hpk ▸ h1)
  · exact h2 (hpk ▸ h3)

theorem alistGet_append {α : Type} (l1 l2 : List (String × α)) (k : String) :
    alistGet (l1 ++ l2) k =
      ((alistGet l1 k).orElse fun _ => alistGet l2 k) := by
  induction l1 with
  | nil => simp [alistGet, Option.orElse]
  | cons p rest ih =>
    by_cases hp : p.1 = k
    · simp [alistGet, hp, Option.orElse]
    · simp [alistGet, hp, ih]

theorem alistGet_foldl_set {α : Type} (ext : List (String × α))
    (base : List (String × α)) (k : String) :
    alistGet (ext.foldl (fun m p => alistSet m p.1 p.2) base) k =
      ((alistGet ext.reverse k).orElse fun _ => alistGet base k) := by
  induction ext generalizing base with
  | nil => simp [alistGet, Option.orElse]
  | cons p rest ih =>
    rw [List.foldl_cons, ih, List.reverse_cons, alistGet_append]
    by_cases hp : p.1 = k
    · cases hr : alistGet rest.reverse k with
      | none => simp [Option.orElse, alistGet, alistSet, hp]
      | some v => simp [Option.orElse, hr]
    · cases hr : alistGet rest.reverse k with
      | none => simp [Option.orElse, alistGet, alistSet, hp, hr]
      | some v => simp [Option.orElse, hr]

theorem alistGet_map_snd {α β : Type} (l : List (String × α)) (g : α → β)
    (k : String) :
    alistGet (l.map fun p => (p.1, g p.2)) k = (alistGet l k).map g := by
  induction l with
  | nil => rfl
  | cons p rest ih =>
    by_cases hp : p.1 = k
    · simp [alistGet, hp]
    · simp [alistGet, hp, ih]

/-! ## Claim theorems -/

/-- Claim C1: store resolution is two-level. For every registry snapshot,
store name and scope, `useAtomStore` returns the instance registered under
the exact `(storeName, scope)` key when present, otherwise the instance
under `(storeName, "provider")` when present, otherwise `none`; and the
result depends only on those two registry keys, so no other key is ever
consulted. -/
theorem store_resolution_two_level (ctx : Registry) (storeName scope : String)
    (warn : Bool) :
    (∀ s, alistGet ctx (getFullyQualifiedScope storeName scope) = some s →
      (useAtomStore ctx storeName scope warn).1 = some s) ∧
    (alistGet ctx (getFullyQualifiedScope storeName scope) = none →
      (useAtomStore ctx storeName scope warn).1 =
        alistGet ctx (getFullyQualifiedScope storeName PROVIDER_SCOPE)) ∧
    (∀ ctx2 : Registry,
      alistGet ctx2 (getFullyQualifiedScope storeName scope) =
        alistGet ctx (getFullyQualifiedScope storeName scope) →
      alistGet ctx2 (getFullyQualifiedScope storeName PROVIDER_SCOPE) =
        alistGet ctx (getFullyQualifiedScope storeName PROVIDER_SCOPE) →
      useAtomStore ctx2 storeName scope warn =
        useAtomStore ctx storeName scope warn) := by
  refine ⟨fun s h => ?_, fun h => ?_, fun ctx2 h1 h2 => ?_⟩
  · simp [useAtomStore, h]
  · simp [useAtomStore, h]
  · simp [useAtomStore, h1, h2]

theorem store_resolution_two_level_witness :
    (useAtomStore ctxTwoScopes "a" "x" true).1 = some 1 :=
  (store_resolution_two_level ctxTwoScopes "a" "x" true).1 1 (by decide)

/-- Claim C9: resolving a store that has no registry entry for either the
requested key or the wildcard key never throws — the resolver is total and
returns `none` — and it emits the console diagnostic naming the unresolved
store exactly when warnings are enabled; with warnings disabled it returns
`none` silently. -/
theorem unresolved_store_silent (ctx : Registry) (storeName scope : String)
    (h1 : alistGet ctx (getFullyQualifiedScope storeName scope) = none)
    (h2 : alistGet ctx (getFullyQualifiedScope storeName PROVIDER_SCOPE) =
      none) :
    useAtomStore ctx storeName scope true =
      (none, some (warnMessage storeName)) ∧
    useAtomStore ctx storeName scope false = (none, none) := by
  constructor <;> simp [useAtomStore, h1, h2]

theorem unresolved_store_silent_witness :
    useAtomStore [] "b" "y" true = (none, some (warnMessage "b")) :=
  (unresolved_store_silent [] "b" "y" (by decide) (by decide)).1

/-- Claim C2 (counterexample): a Provider whose explicit scope prop is the
empty string does not register under its fully qualified scope key — the
`if (scope)` truthiness guard in the `storeContext` memo treats `""` like an
absent scope — contradicting the claim that a Provider given an explicit
scope prop adds entries under both keys. -/
theorem provider_empty_scope_cex :
    alistGet (providerStoreContext [] "a" (some "") 7)
      (getFullyQualifiedScope "a" "") ≠ some 7 := by decide

/-- Claim C2 (amended): extending the inherited snapshot never mutates it; a
Provider with a non-empty explicit scope adds entries under both its
qualified scope key and the wildcard key; a Provider with no scope prop — or
with the empty-string scope, which the `if (scope)` guard treats as absent —
adds only the wildcard entry; and every inherited entry for a key the
Provider does not itself set is still readable, unchanged, in the new
snapshot. -/
theorem provider_register_amended (prev : Registry) (storeScope sc : String)
    (storeState : Nat) :
    (sc ≠ "" →
      alistGet (providerStoreContext prev storeScope (some sc) storeState)
        (getFullyQualifiedScope storeScope sc) = some storeState) ∧
    alistGet (providerStoreContext prev storeScope (some sc) storeState)
      (getFullyQualifiedScope storeScope PROVIDER_SCOPE) = some storeState ∧
    alistGet (providerStoreContext prev storeScope none storeState)
      (getFullyQualifiedScope storeScope PROVIDER_SCOPE) = some storeState ∧
    (∀ k, k ≠ getFullyQualifiedScope storeScope sc →
      k ≠ getFullyQualifiedScope storeScope PROVIDER_SCOPE →
      alistGet (providerStoreContext prev storeScope (some sc) storeState) k =
        alistGet prev k) ∧
    (∀ k, k ≠ getFullyQualifiedScope storeScope PROVIDER_SCOPE →
      alistGet (providerStoreContext prev storeScope none storeState) k =
        alistGet prev k) ∧
    (∀ k, k ≠ getFullyQualifiedScope storeScope PROVIDER_SCOPE →
      alistGet (providerStoreContext prev storeScope (some "") storeState) k =
        alistGet prev k) := by
  refine ⟨fun hsc => ?_, ?_, ?_, fun k hk1 hk2 => ?_, fun k hk => ?_,
    fun k hk => ?_⟩
  · by_cases hps : getFullyQualifiedScope storeScope sc =
        getFullyQualifiedScope storeScope PROVIDER_SCOPE
    · rw [providerStoreContext, hps]
      exact alistGet_set_self _ _ _
    · rw [providerStoreContext]
      rw [alistGet_set_ne _ _ _ _ hps]
      simp only [if_pos hsc, hsc]
      simp [hsc, alistGet_set_self]
  · rw [providerStoreContext]
    exact alistGet_set_self _ _ _
  · rw [providerStoreContext]
    exact alistGet_set_self _ _ _
  · rw [providerStoreContext, alistGet_set_ne _ _ _ _ hk2]
    by_cases hsc : sc = ""
    · simp [hsc]
    · simp only [if_pos (by exact hsc : sc ≠ "")]
      simp [hsc, alistGet_set_ne _ _ _ _ hk1]
  · rw [providerStoreContext, alistGet_set_ne _ _ _ _ hk]
  · rw [providerStoreContext, alistGet_set_ne _ _ _ _ hk]
    simp

theorem provider_register_amended_witness :
    alistGet (providerStoreContext [("b:y", 9)] "a" (some "x") 7)
      (getFullyQualifiedScope "a" "x") = some 7 ∧
    alistGet (providerStoreContext [("b:y", 9)] "a" (some "x") 7) "b:y" =
      some 9 := by
  have h := provider_register_amended [("b:y", 9)] "a" "x" 7
  refine ⟨h.1 (by decide), ?_⟩
  rw [h.2.2.2.1 "b:y" (by decide) (by decide)]
  decide

/-- Claim C3 (counterexample): the codec round-trip law fails on a plain
non-function object that itself carries the private `__fn` marker key:
`unwrapFn(wrapFn({__fn: 0}))` evaluates to `0`, not to the object. -/
theorem wrap_unwrap_roundtrip_cex :
    unwrapFn (wrapFn (JSValue.vObj (.fcons "__fn" (.vNum 0) .fnil))) ≠
      JSValue.vObj (.fcons "__fn" (.vNum 0) .fnil) := by decide

/-- Claim C3 (amended): `unwrapFn (wrapFn v) = v` for every value `v` —
including functions and `null` — that is not a non-function object already
carrying the codec's private `__fn` marker key; and for every function `f`,
`wrapFn f` is container-wrapped, never equal to `f` itself. -/
theorem wrap_unwrap_roundtrip_amended (v : JSValue) :
    (hasFnMarker v = false → unwrapFn (wrapFn v) = v) ∧
    (∀ id, unwrapFn (wrapFn (JSValue.vFun id)) = JSValue.vFun id ∧
      wrapFn (JSValue.vFun id) ≠ JSValue.vFun id) := by
  constructor
  · intro h
    cases v with
    | vUndefined => rfl
    | vNull => rfl
    | vBool b => rfl
    | vNum n => rfl
    | vStr s => rfl
    | vFun id => simp [wrapFn, unwrapFn, fieldsGet]
    | vObj fields =>
      cases hf : fieldsGet fields "__fn" with
      | none => simp [wrapFn, unwrapFn, hf]
      | some u => simp [hasFnMarker, hf] at h
  · intro id
    exact ⟨by simp [wrapFn, unwrapFn, fieldsGet], by simp [wrapFn]⟩

theorem wrap_unwrap_roundtrip_amended_witness :
    unwrapFn (wrapFn JSValue.vNull) = JSValue.vNull :=
  (wrap_unwrap_roundtrip_amended JSValue.vNull).1 (by decide)

/-- Claim C4 (counterexample): when `resetKey` changes identity from `1` to
the falsy value `0`, the reset effect re-runs but its `if (resetKey)` guard
is not taken, so the Provider keeps the current store instance instead of
constructing a fresh one as the claim requires. -/
theorem reset_falsy_key_cex :
    JSValue.vNum 0 ≠ JSValue.vNum 1 ∧
    resetStep (some (JSValue.vNum 1)) (JSValue.vNum 0) 5 6 = 5 ∧
    resetStep (some (JSValue.vNum 1)) (JSValue.vNum 0) 5 6 ≠ 6 := by decide

/-- Claim C4 (amended): whenever the Provider's `resetKey` changes identity
between renders *and the new value is truthy*, the Provider discards the
current store instance for a fresh one, and hydration against the fresh
instance re-seeds from the Provider's current props: every field whose
current `initialValues` entry is defined reads that value, and every other
field reads its construction default — all writes made to the previous
instance are discarded (the fresh cells do not depend on them). -/
theorem reset_truthy_key_amended (prevKey : Option JSValue) (curKey : JSValue)
    (storeId freshId : Nat) (atomKeys : List String)
    (initialValues defaultCells : String → JSValue) (k : String)
    (hchanged : some curKey ≠ prevKey) (htruthy : truthy curKey = true) :
    resetStep prevKey curKey storeId freshId = freshId ∧
    (k ∈ atomKeys → initialValues k ≠ JSValue.vUndefined →
      applyValues defaultCells (hydrateValues atomKeys initialValues) k =
        initialValues k) ∧
    (initialValues k = JSValue.vUndefined →
      applyValues defaultCells (hydrateValues atomKeys initialValues) k =
        defaultCells k) := by
  refine ⟨?_, fun hk hd => ?_, fun hu => ?_⟩
  · rw [resetStep, if_neg fun h => hchanged h.symm, if_pos htruthy]
  · exact applyValues_hydrate_defined _ _ _ _ hk hd
  · exact applyValues_hydrate_skip _ _ _ _ (Or.inr hu)

theorem reset_truthy_key_amended_witness :
    resetStep (some (JSValue.vNum 1)) (JSValue.vNum 2) 5 6 = 6 :=
  (reset_truthy_key_amended (some (JSValue.vNum 1)) (JSValue.vNum 2) 5 6
    ["count"] (fun _ => JSValue.vUndefined) (fun _ => JSValue.vNull) "count"
    (by decide) (by decide)).1

/-- Claim C5: the per-field sync effect writes the external value into the
field's cell if and only if the dependency value changed since the last
commit and the value is neither `undefined` nor `null`; when it does write,
the cell holds the external value, otherwise the cell is untouched; and
syncing a second, different non-sentinel value overwrites the cell again,
unlike one-shot hydration. -/
theorem sync_writes_iff (prevDep : Option JSValue) (value cell : JSValue) :
    ((syncCell prevDep value cell).2 = true ↔
      prevDep ≠ some value ∧ value ≠ JSValue.vUndefined ∧
        value ≠ JSValue.vNull) ∧
    (prevDep ≠ some value → value ≠ JSValue.vUndefined →
      value ≠ JSValue.vNull → (syncCell prevDep value cell).1 = value) ∧
    ((syncCell prevDep value cell).2 = false →
      (syncCell prevDep value cell).1 = cell) ∧
    (∀ v2 c2, v2 ≠ value → v2 ≠ JSValue.vUndefined → v2 ≠ JSValue.vNull →
      (syncCell (some value) v2 c2).1 = v2) := by
  refine ⟨?_, fun h1 h2 h3 => ?_, fun h => ?_, fun v2 c2 h1 h2 h3 => ?_⟩
  · by_cases hp : prevDep = some value
    · rw [syncCell, if_pos hp]
      simp [hp]
    · by_cases hv : value ≠ JSValue.vUndefined ∧ value ≠ JSValue.vNull
      · rw [syncCell, if_neg hp, if_pos hv]
        exact iff_of_true rfl ⟨hp, hv.1, hv.2⟩
      · rw [syncCell, if_neg hp, if_neg hv]
        constructor
        · intro hcontra
          exact (Bool.false_ne_true hcontra).elim
        · rintro ⟨-, hv2, hv3⟩
          exact (hv ⟨hv2, hv3⟩).elim
  · rw [syncCell, if_neg h1, if_pos ⟨h2, h3⟩]
  · by_cases hp : prevDep = some value
    · rw [syncCell, if_pos hp]
    · by_cases hv : value ≠ JSValue.vUndefined ∧ value ≠ JSValue.vNull
      · rw [syncCell, if_neg hp, if_pos hv] at h
        exact absurd h (by simp)
      · rw [syncCell, if_neg hp, if_neg hv]
  · rw [syncCell, if_neg (by simpa using Ne.symm h1), if_pos ⟨h2, h3⟩]

theorem sync_writes_iff_witness :
    (syncCell none (JSValue.vNum 1) (JSValue.vNum 0)).1 = JSValue.vNum 1 :=
  (sync_writes_iff none (JSValue.vNum 1) (JSValue.vNum 0)).2.1
    (by decide) (by decide) (by decide)

/-- Claim C6: hydration seeds exactly the fields whose `initialValues` entry
is defined. The hydration batch contains the pair `(k, v)` precisely when
`k` is a field of the atom record and `initialValues k` is a defined value
equal to `v`; seeding such a field leaves it holding `initialValues k`, and
a field whose entry is `undefined` (or absent, which reads as `undefined`)
is not seeded at all — its cell is unchanged. -/
theorem hydrate_seeds_exactly_defined (atomKeys : List String)
    (initialValues cells : String → JSValue) (k : String) (v : JSValue) :
    ((k, v) ∈ hydrateValues atomKeys initialValues ↔
      k ∈ atomKeys ∧ initialValues k ≠ JSValue.vUndefined ∧
        v = initialValues k) ∧
    (k ∈ atomKeys → initialValues k ≠ JSValue.vUndefined →
      applyValues cells (hydrateValues atomKeys initialValues) k =
        initialValues k) ∧
    (initialValues k = JSValue.vUndefined →
      applyValues cells (hydrateValues atomKeys initialValues) k = cells k) :=
  ⟨hydrateValues_mem atomKeys initialValues k v,
   fun hk hd => applyValues_hydrate_defined cells atomKeys initialValues k hk hd,
   fun hu => applyValues_hydrate_skip cells atomKeys initialValues k
     (Or.inr hu)⟩

theorem hydrate_seeds_exactly_defined_witness :
    applyValues (fun _ => JSValue.vNull)
      (hydrateValues ["count"]
        (fun k => if k = "count" then JSValue.vNum 5 else JSValue.vUndefined))
      "count" = JSValue.vNum 5 := by
  have h := (hydrate_seeds_exactly_defined ["count"]
    (fun k => if k = "count" then JSValue.vNum 5 else JSValue.vUndefined)
    (fun _ => JSValue.vNull) "count" JSValue.vNull).2.1
    (by decide) (by decide)
  exact h.trans (by decide)

/-- Claim C7: hydration and sync only ever target the writable base-field
cells. The Provider is constructed with `writableAtomsWithoutExtend` (never
with the extended atom record), whose key set consists exactly of the base
fields whose atom configuration is writable; any key outside that set — in
particular any extension-only key — is untouched by hydration (supplying an
`initialValues` entry for it has no effect on any cell) and untouched by
sync. -/
theorem hydrate_sync_only_writable_base (init : List (String × FieldInit)) :
    (∀ k, k ∈ providerAtomKeys init ↔
      ∃ fi, (k, fi) ∈ init ∧ writableOf (toAtomConfig fi) = true) ∧
    (∀ (initialValues cells : String → JSValue) (k : String),
      k ∉ providerAtomKeys init →
      applyValues cells (hydrateValues (providerAtomKeys init) initialValues)
        k = cells k) ∧
    (∀ (prevDeps : String → Option JSValue)
      (values cells : String → JSValue) (k : String),
      k ∉ providerAtomKeys init →
      syncStore (providerAtomKeys init) prevDeps values cells k = cells k) := by
  refine ⟨fun k => ?_, fun iv cells k hk => ?_, fun pd vals cells k hk => ?_⟩
  · constructor
    · intro hk
      rcases List.mem_map.mp hk with ⟨p, hp, hpk⟩
      rcases List.mem_filter.mp hp with ⟨hp2, hg⟩
      rcases List.mem_map.mp hp2 with ⟨⟨q1, q2⟩, hq, hfq⟩
      subst hfq
      have hq1 : q1 = k := hpk
      subst hq1
      exact ⟨q2, hq, hg⟩
    · rintro ⟨fi, hfi, hw⟩
      apply List.mem_map.mpr
      refine ⟨(k, toAtomConfig fi), ?_, rfl⟩
      apply List.mem_filter.mpr
      exact ⟨List.mem_map.mpr ⟨(k, fi), hfi, rfl⟩, hw⟩
  · exact applyValues_hydrate_skip cells (providerAtomKeys init) iv k
      (Or.inl hk)
  · rw [syncStore, if_neg hk]

theorem hydrate_sync_only_writable_base_witness :
    applyValues (fun _ => JSValue.vNum 0)
      (hydrateValues
        (providerAtomKeys
          [("count", FieldInit.plain (JSValue.vNum 1)),
           ("derived", FieldInit.cell 3 false)])
        (fun _ => JSValue.vNum 9)) "derived" = JSValue.vNum 0 :=
  (hydrate_sync_only_writable_base
    [("count", FieldInit.plain (JSValue.vNum 1)),
     ("derived", FieldInit.cell 3 false)]).2.1
    (fun _ => JSValue.vNum 9) (fun _ => JSValue.vNum 0) "derived" (by decide)

/-- Claim C8: when a field key collides between the base fields and the
record returned by the extension function, the extension's atom silently
replaces the base atom in the final atom record (last assignment wins), and
the field's writability flag is re-derived from the extension atom. The
merge is a total function with no diagnostic channel: no error is raised and
nothing is logged. -/
theorem extension_merge_last_write_wins (init : List (String × FieldInit))
    (ext : List (String × AtomDesc)) (k : String) (d : AtomDesc)
    (hbase : k ∈ init.map Prod.fst) (hext : alistGet ext.reverse k = some d) :
    alistGet (atomsAfterExtend init ext) k = some d ∧
    alistGet (writableAfterExtend init ext) k = some (writableOf d) := by
  constructor
  · rw [atomsAfterExtend, alistGet_foldl_set, hext]
    rfl
  · have hmap : writableAfterExtend init ext =
        (ext.map fun p => (p.1, writableOf p.2)).foldl
          (fun m p => alistSet m p.1 p.2) (atomIsWritableBase init) := by
      rw [writableAfterExtend, List.foldl_map]
    rw [hmap, alistGet_foldl_set, ← List.map_reverse, alistGet_map_snd, hext]
    rfl

theorem extension_merge_last_write_wins_witness :
    alistGet
      (atomsAfterExtend [("count", FieldInit.plain (JSValue.vNum 1))]
        [("count", AtomDesc.external 5 false)]) "count" =
      some (AtomDesc.external 5 false) :=
  (extension_merge_last_write_wins
    [("count", FieldInit.plain (JSValue.vNum 1))]
    [("count", AtomDesc.external 5 false)] "count"
    (AtomDesc.external 5 false) (by decide) (by decide)).1

/-- Claim C10 (counterexample): the per-field accessors of the use-store
hook do not treat a bare scope string like `{ scope }`. Against a registry
binding scope `x` of store `a` to instance `1` and the wildcard to instance
`0`, `get.<field>("x")` resolves instance `0` (the string is object-spread
into the defaults and contributes no scope) while `get.<field>({scope: "x"})`
resolves instance `1`. -/
theorem field_accessor_scope_shorthand_cex :
    publicGetField ctxTwoScopes "a" (.opts {}) (.str "x") ≠
      publicGetField ctxTwoScopes "a" (.opts {}) (.opts { scope := some "x" })
    := by decide

/-- Claim C10 (amended): the accessors whose argument is passed through
`convertScopeShorthand` — the store resolver `useStore`, the `store`
function, and the `.atom` variants of `get`/`set`/`use` — treat a bare
string `s` identically to the options object `{ scope: s }`. The per-field
`get`/`set`/`use` accessors of the use-store hook do not: their
`withDefaultOptions` wrapper object-spreads the argument over the bound
defaults, and spreading a string contributes none of the option properties,
so a bare string behaves exactly like passing no options at all. -/
theorem scope_shorthand_amended (ctx : Registry) (name : String)
    (d : OptionsOrScope) (s : String) :
    useStore ctx name (.str s) =
      useStore ctx name (.opts { scope := some s }) ∧
    publicStoreFn ctx name d (.str s) =
      publicStoreFn ctx name d (.opts { scope := some s }) ∧
    publicGetAtom ctx name d (.str s) =
      publicGetAtom ctx name d (.opts { scope := some s }) ∧
    publicSetAtom ctx name d (.str s) =
      publicSetAtom ctx name d (.opts { scope := some s }) ∧
    publicUseAtom ctx name d (.str s) =
      publicUseAtom ctx name d (.opts { scope := some s }) ∧
    publicGetField ctx name d (.str s) =
      publicGetField ctx name d (.opts {}) ∧
    publicSetField ctx name d (.str s) =
      publicSetField ctx name d (.opts {}) ∧
    publicUseField ctx name d (.str s) =
      publicUseField ctx name d (.opts {}) :=
  ⟨rfl, rfl, rfl, rfl, rfl, rfl, rfl, rfl⟩
